import Mathlib

set_option maxRecDepth 8000

/-!
Verification of the guarderd process supervisor (src/src/main.rs).

The embedding models the pure parts of the program directly (the pid-record
serialization of `save_pids` and the parser of `get_pids` work on `List Char`
contents), and models the effectful parts (the `stop` command, the supervisor
loop of `start`, the Ctrl-C termination handler and the log-drain thread) as
explicit state passing over oracles: process liveness is a function from a
syscall-probe index to a Bool, and the shared running flag is a function from
a read index to a Bool.  Each kill/liveness syscall consumes one probe index;
`kill` delivery fails with ESRCH exactly when the target is not alive at the
probe at which the signal is sent.
-/

namespace Guarderd

instance {ε α : Type _} [DecidableEq ε] [DecidableEq α] : DecidableEq (Except ε α) :=
  fun a b =>
    match a, b with
    | Except.ok x, Except.ok y =>
      if h : x = y then isTrue (by rw [h])
      else isFalse (by intro he; cases he; exact h rfl)
    | Except.ok _, Except.error _ => isFalse (by intro h; cases h)
    | Except.error _, Except.ok _ => isFalse (by intro h; cases h)
    | Except.error x, Except.error y =>
      if h : x = y then isTrue (by rw [h])
      else isFalse (by intro he; cases he; exact h rfl)

/-- ASCII fragment of the whitespace predicate behind Rust's `str::trim`
(space and the control characters TAB, LF, VT, FF, CR). -/
def isWs (ch : Char) : Bool :=
  ch = ' ' || ch = '\t' || ch = '\n' || ch = '\x0b' || ch = '\x0c' || ch = '\r'

/-- Left part of Rust `str::trim`. -/
def trimL (cs : List Char) : List Char := cs.dropWhile isWs

/-- Right part of Rust `str::trim`. -/
def trimR (cs : List Char) : List Char := (cs.reverse.dropWhile isWs).reverse

/-- Rust `str::trim` (both ends, independent). -/
def trim (cs : List Char) : List Char := trimR (trimL cs)

/-- Rust `str::split_once(sep)`: split at the first occurrence of `sep`. -/
def splitOnce (sep : Char) : List Char → Option (List Char × List Char)
  | [] => none
  | ch :: rest =>
    if ch = sep then some ([], rest)
    else (splitOnce sep rest).map (fun p => (ch :: p.1, p.2))

/-- Split a character list on every occurrence of `sep` (always non-empty). -/
def splitOnChar (sep : Char) : List Char → List (List Char)
  | [] => [[]]
  | ch :: rest =>
    if ch = sep then [] :: splitOnChar sep rest
    else
      match splitOnChar sep rest with
      | [] => [[ch]]
      | h :: t => (ch :: h) :: t

/-- Strip one trailing carriage return, as Rust `str::lines` does per line. -/
def stripCR (l : List Char) : List Char :=
  if l.getLast? = some '\r' then l.dropLast else l

/-- Rust `str::lines`: split on LF, drop a final empty piece produced by a
trailing newline, strip a trailing CR from each line. -/
def rustLines (cs : List Char) : List (List Char) :=
  let parts := splitOnChar '\n' cs
  let parts := if parts.getLast? = some [] then parts.dropLast else parts
  parts.map stripCR

/-- The ASCII digit character for a decimal digit value. -/
def digitChar (d : Nat) : Char := Char.ofNat (48 + d)

/-- Decimal digit run of a positive natural, most significant first; `fuel`
bounds the recursion (any `fuel ≥ n` computes all digits of `n`). -/
def natCharsAux : Nat → Nat → List Char
  | 0, _ => []
  | _+1, 0 => []
  | fuel+1, n+1 => natCharsAux fuel ((n+1) / 10) ++ [digitChar ((n+1) % 10)]

/-- Decimal rendering of a natural number, as Rust `Display` for integers. -/
def natChars (n : Nat) : List Char := if n = 0 then ['0'] else natCharsAux n n

/-- Decimal rendering of a signed integer, as Rust `format!("{}", i)` for
an `i32` value. -/
def intChars (z : Int) : List Char :=
  if z < 0 then '-' :: natChars z.natAbs else natChars z.toNat

/-- Decimal digit value of an ASCII character, if it is a digit. -/
def charDigit (ch : Char) : Option Nat :=
  if 48 ≤ ch.toNat ∧ ch.toNat ≤ 57 then some (ch.toNat - 48) else none

/-- Accumulating decimal parser over a character run; fails on the first
non-digit character. -/
def parseNatAux : List Char → Nat → Option Nat
  | [], acc => some acc
  | ch :: rest, acc =>
    match charDigit ch with
    | some d => parseNatAux rest (acc * 10 + d)
    | none => none

/-- Parse a non-empty all-digit run; `none` on the empty run. -/
def parseNatDigits : List Char → Option Nat
  | [] => none
  | ch :: rest => parseNatAux (ch :: rest) 0

/-- Rust `str::parse::<i32>()`: optional sign, then a non-empty digit run,
rejecting values outside the `i32` range. -/
def parseI32 (cs : List Char) : Option Int :=
  match cs with
  | [] => none
  | ch :: rest =>
    if ch = '-' then
      (parseNatDigits rest).bind
        (fun n => if n ≤ 2147483648 then some (-(n : Int)) else none)
    else if ch = '+' then
      (parseNatDigits rest).bind
        (fun n => if n ≤ 2147483647 then some ((n : Int)) else none)
    else
      (parseNatDigits (ch :: rest)).bind
        (fun n => if n ≤ 2147483647 then some ((n : Int)) else none)

/-- The recognized record key `daemon_pid`. -/
def daemonKey : List Char := ['d','a','e','m','o','n','_','p','i','d']

/-- The recognized record key `child_pid`. -/
def childKey : List Char := ['c','h','i','l','d','_','p','i','d']

/-- Errors of `Daemon::get_pids` (src/src/main.rs lines 98-138). -/
inductive PidError
  | fileNotFound
  | parseDaemonPid (value : List Char)
  | parseChildPid (value : List Char)
  | daemonPidMissing
  | childPidMissing
deriving DecidableEq

/-- The line loop of `Daemon::get_pids` (src/src/main.rs lines 105-132):
trim each line, skip empty lines and lines without a colon, split at the
first colon, trim key and value, parse recognized keys (errors short-circuit,
later occurrences of a key overwrite earlier ones), ignore unknown keys. -/
def parseLines : List (List Char) → Option Int → Option Int →
    Except PidError (Option Int × Option Int)
  | [], d, c => Except.ok (d, c)
  | l :: rest, d, c =>
    let line := trim l
    if line = [] then parseLines rest d c
    else
      match splitOnce ':' line with
      | none => parseLines rest d c
      | some (k, v) =>
        let key := trim k
        let value := trim v
        if key = daemonKey then
          match parseI32 value with
          | some n => parseLines rest (some n) c
          | none => Except.error (PidError.parseDaemonPid value)
        else if key = childKey then
          match parseI32 value with
          | some n => parseLines rest d (some n)
          | none => Except.error (PidError.parseChildPid value)
        else parseLines rest d c

/-- `Daemon::get_pids` (src/src/main.rs lines 98-138); the argument is the
pid-file content, `none` when the file does not exist. -/
def get_pids (content : Option (List Char)) : Except PidError (Int × Int) :=
  match content with
  | none => Except.error PidError.fileNotFound
  | some cs =>
    match parseLines (rustLines cs) none none with
    | Except.error e => Except.error e
    | Except.ok (none, _) => Except.error PidError.daemonPidMissing
    | Except.ok (some _, none) => Except.error PidError.childPidMissing
    | Except.ok (some d, some c) => Except.ok (d, c)

/-- The content `Daemon::save_pids` writes (src/src/main.rs lines 88-96):
`format!("daemon_pid: {}\nchild_pid: {}\n", daemon_pid, child_pid)`. -/
def save_pids (daemon_pid child_pid : Int) : List Char :=
  (daemonKey ++ ':' :: ' ' :: intChars daemon_pid) ++
    '\n' :: ((childKey ++ ':' :: ' ' :: intChars child_pid) ++ ['\n'])

/-- Classification of one record line by the `get_pids` loop: `some (b, v)`
when the line is recognized (with `b = true` for the daemon key) carrying the
trimmed value, `none` when the line is skipped. -/
def entryOf (l : List Char) : Option (Bool × List Char) :=
  let line := trim l
  if line = [] then none
  else
    match splitOnce ':' line with
    | none => none
    | some (k, v) =>
      let key := trim k
      if key = daemonKey then some (true, trim v)
      else if key = childKey then some (false, trim v)
      else none

/-- The recognized entries of a record, in order. -/
def entriesOf (ls : List (List Char)) : List (Bool × List Char) :=
  ls.filterMap entryOf

/-- The `get_pids` loop reduced to its recognized entries. -/
def processEntries : List (Bool × List Char) → Option Int → Option Int →
    Except PidError (Option Int × Option Int)
  | [], d, c => Except.ok (d, c)
  | e :: rest, d, c =>
    match parseI32 e.2 with
    | some n =>
      if e.1 then processEntries rest (some n) c else processEntries rest d (some n)
    | none =>
      Except.error (if e.1 then PidError.parseDaemonPid e.2 else PidError.parseChildPid e.2)

/-- The first recognized entry whose value does not parse as an integer. -/
def firstBad : List (Bool × List Char) → Option (Bool × List Char)
  | [] => none
  | e :: rest => if (parseI32 e.2).isNone then some e else firstBad rest

/-- The value of the last recognized entry for a key (`true` = daemon). -/
def lastField (b : Bool) : List (Bool × List Char) → Option (List Char)
  | [] => none
  | e :: rest => (lastField b rest).or (if e.1 = b then some e.2 else none)

/-- The parsed value of the last recognized entry for a key. -/
def lastPid (b : Bool) (es : List (Bool × List Char)) : Option Int :=
  (lastField b es).bind parseI32

/-- Messages printed by `Daemon::stop` (src/src/main.rs lines 140-187). -/
inductive Msg
  | daemonNotRunning (p : Int)
  | daemonStillSigkill (p : Int)
  | stoppedWaiting (d c : Int)
  | childExited (p : Int)
  | childStillRunning (p : Int)
  | childKillTimeout (p : Int)
deriving DecidableEq

/-- The two real signals `stop` and the handler send. -/
inductive Sig
  | term
  | kill
deriving DecidableEq

/-- Observable events of the `stop` command: liveness probes
(`kill(pid, None)` in `is_process_exist`), signal sends with their delivery
outcome, printed messages, and sleeps. -/
inductive SEv
  | probe (pid : Int) (isAlive : Bool)
  | send (s : Sig) (pid : Int) (delivered : Bool)
  | print (m : Msg)
  | sleepMs (n : Nat)
deriving DecidableEq

/-- Errors of `Daemon::stop`: a record-load error, or a `kill` call that
failed because the target was already gone (the `.with_context(...)?` sites
at src/src/main.rs lines 147, 157 and 182). -/
inductive StopError
  | record (e : PidError)
  | sigtermDaemonFailed (p : Int)
  | sigkillDaemonFailed (p : Int)
  | sigkillChildFailed (p : Int)
deriving DecidableEq

/-- The child wait loop of `stop` (src/src/main.rs lines 167-175): up to
`polls` iterations of the 5-second budget, each probing the child, printing,
and sleeping 100 ms while the child lives; returns the next probe index and
the events. -/
def child_wait (alive : Nat → Int → Bool) (c : Int) : Nat → Nat → Nat × List SEv
  | 0, t => (t, [])
  | polls+1, t =>
    if alive t c then
      ((child_wait alive c polls (t+1)).1,
        SEv.probe c true :: SEv.print (Msg.childStillRunning c) ::
          SEv.sleepMs 100 :: (child_wait alive c polls (t+1)).2)
    else (t+1, [SEv.probe c false, SEv.print (Msg.childExited c)])

/-- The tail of `stop` after the child wait loop (src/src/main.rs lines
177-184): probe the child once more, and SIGKILL it if still alive. -/
def stopChildPhase (alive : Nat → Int → Bool) (c : Int) (t polls : Nat) :
    Except StopError Unit × List SEv :=
  let r := child_wait alive c polls t
  if alive r.1 c then
    if alive (r.1 + 1) c then
      (Except.ok (),
        r.2 ++ [SEv.probe c true, SEv.print (Msg.childKillTimeout c),
          SEv.send Sig.kill c true])
    else
      (Except.error (StopError.sigkillChildFailed c),
        r.2 ++ [SEv.probe c true, SEv.print (Msg.childKillTimeout c),
          SEv.send Sig.kill c false])
  else (Except.ok (), r.2 ++ [SEv.probe c false])

/-- `stop` after SIGTERM was delivered to the daemon and the 1-second grace
elapsed (src/src/main.rs lines 152-184): re-probe the daemon, escalate to
SIGKILL if still alive, then wait the child out. -/
def stopAfterGrace (alive : Nat → Int → Bool) (d c : Int) (polls : Nat) :
    Except StopError Unit × List SEv :=
  if alive 2 d then
    if alive 3 d then
      let r := stopChildPhase alive c 4 polls
      (r.1, SEv.probe d true :: SEv.print (Msg.daemonStillSigkill d) ::
        SEv.send Sig.kill d true :: SEv.print (Msg.stoppedWaiting d c) :: r.2)
    else
      (Except.error (StopError.sigkillDaemonFailed d),
        [SEv.probe d true, SEv.print (Msg.daemonStillSigkill d),
          SEv.send Sig.kill d false])
  else
    let r := stopChildPhase alive c 3 polls
    (r.1, SEv.probe d false :: SEv.print (Msg.stoppedWaiting d c) :: r.2)

/-- `Daemon::stop` (src/src/main.rs lines 140-187).  `record` is the pid-file
content (`none` when absent); `alive t p` says whether process `p` exists at
the `t`-th liveness-affecting syscall of this invocation; `polls` is the
number of 100 ms iterations the 5-second budget allows. -/
def stop (record : Option (List Char)) (alive : Nat → Int → Bool) (polls : Nat) :
    Except StopError Unit × List SEv :=
  match get_pids record with
  | Except.error e => (Except.error (StopError.record e), [])
  | Except.ok (d, c) =>
    if alive 0 d then
      if alive 1 d then
        let r := stopAfterGrace alive d c polls
        (r.1, SEv.probe d true :: SEv.send Sig.term d true :: SEv.sleepMs 1000 :: r.2)
      else
        (Except.error (StopError.sigtermDaemonFailed d),
          [SEv.probe d true, SEv.send Sig.term d false])
    else (Except.ok (), [SEv.probe d false, SEv.print (Msg.daemonNotRunning d)])

/-- Events of the termination handler (src/src/main.rs lines 315-330). -/
inductive HEv
  | sigtermChild (p : Int) (delivered : Bool)
  | setRunningFalse
  | printShutdown
  | syncLog
  | exitProcess
deriving DecidableEq

/-- The Ctrl-C handler closure (src/src/main.rs lines 319-328): SIGTERM the
recorded child if present with the delivery result discarded (`_ = kill`),
clear the running flag, print the shutdown message, sync the log handle if
open, and exit the process. -/
def handlerRun (child : Option Int) (delivered : Bool) (logHandle : Bool) : List HEv :=
  (match child with
   | some p => [HEv.sigtermChild p delivered]
   | none => []) ++
  HEv.setRunningFalse :: HEv.printShutdown ::
    ((if logHandle then [HEv.syncLog] else []) ++ [HEv.exitProcess])

/-- Observable events of `Daemon::start` and its supervisor loop
(src/src/main.rs lines 189-252). -/
inductive Ev
  | printLockFailed
  | daemonize
  | spawn (pid : Int)
  | save (d c : Int)
  | waitExit (pid : Int)
  | printRestart
  | sleep1
  | ret
deriving DecidableEq

/-- The filesystem state the model tracks: the status directory, the lock
file, and the pid record content. -/
structure FS where
  statusDirExists : Bool
  lockFileExists : Bool
  record : Option (List Char)
deriving DecidableEq

/-- `Daemon::try_lock` (src/src/main.rs lines 72-86): opens the lock file
with `create(true)` (so the file exists afterwards in every case), then
attempts a non-blocking exclusive lock; `lockAvailable` says whether no other
instance holds the lock. -/
def try_lock (lockAvailable : Bool) (fs : FS) : FS × Bool :=
  ({ fs with lockFileExists := true }, lockAvailable)

/-- Effect of one supervisor event on the filesystem: only `save` writes
(it overwrites the pid record). -/
def applyEv (fs : FS) : Ev → FS
  | Ev.save d c => { fs with record := some (save_pids d c) }
  | _ => fs

/-- Fold of `applyEv` over an event list. -/
def applyEvs (fs : FS) (evs : List Ev) : FS := evs.foldl applyEv fs

/-- The restart-delay for-loop (src/src/main.rs lines 243-248): up to
`n` one-second sleeps, each preceded by a read of the running flag at the
next read index; a false read breaks out.  Returns the next read index and
the emitted events. -/
def delayPhase (flag : Nat → Bool) : Nat → Nat → Nat × List Ev
  | t, 0 => (t, [])
  | t, n+1 =>
    if flag t then
      ((delayPhase flag (t+1) n).1, Ev.sleep1 :: (delayPhase flag (t+1) n).2)
    else (t+1, [])

/-- The supervisor loop of `Daemon::start` (src/src/main.rs lines 210-250).
`flag i` is the value the `i`-th load of the running flag observes; `pids k`
is the pid of the `k`-th spawned child; `fuel` bounds the number of loop
iterations.  Each iteration: check the flag (loop condition), spawn, save the
record, wait for the child, check the flag again, and if still running do the
delay loop before re-entering. -/
def supLoop (flag : Nat → Bool) (interval : Nat) (dpid : Int) (pids : Nat → Int) :
    Nat → Nat → Nat → List Ev
  | _, _, 0 => []
  | k, t, fuel+1 =>
    if flag t then
      Ev.spawn (pids k) :: Ev.save dpid (pids k) :: Ev.waitExit (pids k) ::
        (if flag (t+1) then
          Ev.printRestart ::
            ((delayPhase flag (t+2) interval).2 ++
              supLoop flag interval dpid pids (k+1) (delayPhase flag (t+2) interval).1 fuel)
        else supLoop flag interval dpid pids (k+1) (t+2) fuel)
    else [Ev.ret]

/-- The running flag is set once to true and only ever cleared (spec: it
transitions true to false exactly once, never back): a later read seeing true
means every earlier read saw true. -/
def Mono (flag : Nat → Bool) : Prop := ∀ i, flag (i+1) = true → flag i = true

/-- Whether an event trace contains a child spawn. -/
def hasSpawnB (evs : List Ev) : Bool :=
  evs.any (fun e => match e with | Ev.spawn _ => true | _ => false)

/-- Number of one-second sleeps in an event trace. -/
def sleepCount (evs : List Ev) : Nat :=
  evs.countP (fun e => match e with | Ev.sleep1 => true | _ => false)

/-- `Daemon::start` (src/src/main.rs lines 189-252): try the lock and return
after printing on failure; otherwise daemonize and run the supervisor loop,
with the pid record updated by each save. -/
def start (lockAvailable : Bool) (flag : Nat → Bool) (interval : Nat) (dpid : Int)
    (pids : Nat → Int) (fuel : Nat) (fs : FS) : FS × List Ev :=
  let l := try_lock lockAvailable fs
  if l.2 = true then
    let evs := Ev.daemonize :: supLoop flag interval dpid pids 0 0 fuel
    (applyEvs l.1 evs, evs)
  else (l.1, [Ev.printLockFailed])

/-- The CLI subcommands. -/
inductive Cmd
  | cmdStart
  | cmdStop
  | cmdStatus
deriving DecidableEq

/-- Outcome of one program invocation: normal return, the error `main`
propagates from `stop`, or the panic `status` raises via `expect`. -/
inductive MainOutcome
  | ok
  | stopErr (e : StopError)
  | statusPanic (e : PidError)
deriving DecidableEq

/-- Oracles a full invocation depends on. -/
structure Env where
  lockAvailable : Bool
  flag : Nat → Bool
  interval : Nat
  dpid : Int
  pids : Nat → Int
  fuel : Nat
  alive : Nat → Int → Bool
  polls : Nat

/-- `main` together with `Daemon::new` (src/src/main.rs lines 52-70 and
376-391): every invocation first runs `create_dir_all` on the status
directory, then dispatches on the subcommand. -/
def mainModel (cmd : Cmd) (env : Env) (fs : FS) : FS × MainOutcome :=
  let fs := { fs with statusDirExists := true }
  match cmd with
  | Cmd.cmdStart =>
    ((start env.lockAvailable env.flag env.interval env.dpid env.pids env.fuel fs).1,
      MainOutcome.ok)
  | Cmd.cmdStop =>
    match (stop fs.record env.alive env.polls).1 with
    | Except.ok _ => (fs, MainOutcome.ok)
    | Except.error e => (fs, MainOutcome.stopErr e)
  | Cmd.cmdStatus =>
    match get_pids fs.record with
    | Except.ok _ => (fs, MainOutcome.ok)
    | Except.error e => (fs, MainOutcome.statusPanic e)

/-- State of the log-drain thread (src/src/main.rs lines 264-312): the byte
counter since the last accounting checkpoint, and the log file length. -/
structure LogState where
  bytesWritten : Nat
  fileLen : Nat
deriving DecidableEq

/-- `let written_check = 1u64 << 20` (src/src/main.rs line 267). -/
def writtenCheck : Nat := 1048576

/-- One successful read of `n > 0` bytes in the log-drain loop
(src/src/main.rs lines 273-298): at an accounting checkpoint
(`bytes_written >= written_check`) the counter resets and, if the file length
exceeds `max_log_size`, the file is truncated to zero and the rotation marker
(of length `markerLen`) is written; then the chunk is appended.  Returns the
new state and whether a rotation happened. -/
def logStep (max_log_size markerLen : Nat) (s : LogState) (n : Nat) :
    LogState × Bool :=
  if writtenCheck ≤ s.bytesWritten then
    if max_log_size < s.fileLen then
      ({ bytesWritten := n, fileLen := markerLen + n }, true)
    else
      ({ bytesWritten := n, fileLen := s.fileLen + n }, false)
  else
    ({ bytesWritten := s.bytesWritten + n, fileLen := s.fileLen + n }, false)

/-- `main` passes `args.max_log_size_mib` to `Daemon::start` unchanged
(src/src/main.rs line 381), and `start` hands it to `spawn_log_thread`
unchanged (line 206): the number of mebibytes itself is used as
`max_log_size`, with no conversion to bytes. -/
def cliMaxLogSize (max_log_size_mib : Nat) : Nat := max_log_size_mib

/-- `DEFAULT_MAX_LOG_SIZE_MIB` (src/src/main.rs line 14). -/
def DEFAULT_MAX_LOG_SIZE_MIB : Nat := 10

/-- Follows the spec's words (rotation condition of claim C2): the drain
thread should truncate exactly when the log file's byte length exceeds the
configured maximum expressed in bytes, `max_log_size_mib * 2^20`. -/
def specRotateCond (max_log_size_mib fileLen : Nat) : Bool :=
  max_log_size_mib * 1048576 < fileLen

/-! ## Decimal rendering and parsing -/

theorem charDigit_digitChar : ∀ d < 10, charDigit (digitChar d) = some d := by decide

theorem digitChar_facts :
    ∀ d < 10, isWs (digitChar d) = false ∧ digitChar d ≠ ':' ∧
      digitChar d ≠ '-' ∧ digitChar d ≠ '+' ∧ digitChar d ≠ '\r' ∧
      digitChar d ≠ '\n' := by decide

theorem parseNatAux_append (xs ys : List Char) (acc : Nat) :
    parseNatAux (xs ++ ys) acc =
      match parseNatAux xs acc with
      | some a => parseNatAux ys a
      | none => none := by
  induction xs generalizing acc with
  | nil => rfl
  | cons ch rest ih =>
    simp only [List.cons_append, parseNatAux]
    cases charDigit ch with
    | none => rfl
    | some d => exact ih _

theorem natCharsAux_digits :
    ∀ fuel n, ∀ ch ∈ natCharsAux fuel n, ∃ d, d < 10 ∧ ch = digitChar d := by
  intro fuel
  induction fuel with
  | zero => intro n ch h; simp [natCharsAux] at h
  | succ fuel ih =>
    intro n ch h
    match n with
    | 0 => simp [natCharsAux] at h
    | m+1 =>
      simp only [natCharsAux, List.mem_append, List.mem_singleton] at h
      rcases h with h | h
      · exact ih _ ch h
      · exact ⟨(m+1) % 10, Nat.mod_lt _ (by norm_num), h⟩

theorem natCharsAux_ne_nil {fuel n : Nat} (h1 : 0 < n) (h2 : n ≤ fuel) :
    natCharsAux fuel n ≠ [] := by
  cases fuel with
  | zero => omega
  | succ fuel =>
    cases n with
    | zero => omega
    | succ m => simp [natCharsAux]

theorem parseNatAux_natCharsAux :
    ∀ fuel n, 0 < n → n ≤ fuel → parseNatAux (natCharsAux fuel n) 0 = some n := by
  intro fuel
  induction fuel with
  | zero => intro n h1 h2; omega
  | succ fuel ih =>
    intro n h1 h2
    obtain ⟨m, rfl⟩ : ∃ m, n = m + 1 := ⟨n - 1, by omega⟩
    simp only [natCharsAux]
    rw [parseNatAux_append]
    by_cases hq : (m+1) / 10 = 0
    · have hz : natCharsAux fuel ((m+1) / 10) = [] := by
        rw [hq]; cases fuel <;> rfl
      rw [hz]
      simp only [parseNatAux, charDigit_digitChar _ (Nat.mod_lt _ (by norm_num))]
      have hdm := Nat.div_add_mod (m+1) 10
      congr 1
      omega
    · have hle : (m+1) / 10 ≤ fuel := by
        have := Nat.div_lt_self (show 0 < m+1 by omega) (show 1 < 10 by norm_num)
        omega
      rw [ih _ (Nat.pos_of_ne_zero hq) hle]
      simp only [parseNatAux, charDigit_digitChar _ (Nat.mod_lt _ (by norm_num))]
      have hdm := Nat.div_add_mod (m+1) 10
      congr 1
      omega

theorem natChars_digits (n : Nat) :
    ∀ ch ∈ natChars n, ∃ d, d < 10 ∧ ch = digitChar d := by
  intro ch h
  unfold natChars at h
  split at h
  · simp only [List.mem_singleton] at h
    exact ⟨0, by norm_num, h⟩
  · exact natCharsAux_digits n n ch h

theorem natChars_ne_nil (n : Nat) : natChars n ≠ [] := by
  unfold natChars
  split
  · exact List.cons_ne_nil _ _
  · exact natCharsAux_ne_nil (Nat.pos_of_ne_zero (by assumption)) le_rfl

theorem parseNatDigits_natChars (n : Nat) : parseNatDigits (natChars n) = some n := by
  have h0 : parseNatAux (natChars n) 0 = some n := by
    unfold natChars
    split
    · subst n; decide
    · exact parseNatAux_natCharsAux n n (Nat.pos_of_ne_zero (by assumption)) le_rfl
  rcases e : natChars n with _ | ⟨c, cs⟩
  · exact absurd e (natChars_ne_nil n)
  · rw [e] at h0; exact h0

theorem natChars_head_not_sign (n : Nat) :
    ∃ c cs, natChars n = c :: cs ∧ c ≠ '-' ∧ c ≠ '+' ∧ isWs c = false := by
  rcases e : natChars n with _ | ⟨c, cs⟩
  · exact absurd e (natChars_ne_nil n)
  · obtain ⟨d, hd, hc⟩ := natChars_digits n c (by rw [e]; exact List.mem_cons_self c cs)
    obtain ⟨w1, -, w3, w4, -, -⟩ := digitChar_facts d hd
    exact ⟨c, cs, rfl, hc ▸ w3, hc ▸ w4, hc ▸ w1⟩

theorem parseI32_natChars {n : Nat} (h : n ≤ 2147483647) :
    parseI32 (natChars n) = some (n : Int) := by
  obtain ⟨c, cs, e, h1, h2, -⟩ := natChars_head_not_sign n
  rw [e]
  simp only [parseI32, if_neg h1, if_neg h2]
  rw [← e, parseNatDigits_natChars]
  simp [h]

theorem parseI32_intChars {z : Int}
    (h1 : -2147483648 ≤ z) (h2 : z ≤ 2147483647) :
    parseI32 (intChars z) = some z := by
  unfold intChars
  split
  · rename_i hneg
    simp only [parseI32, if_pos rfl]
    rw [parseNatDigits_natChars]
    have hle : z.natAbs ≤ 2147483648 := by omega
    simp only [Option.some_bind, if_pos hle]
    have hz : (z.natAbs : Int) = -z := by omega
    rw [hz, neg_neg]
    simp
  · rename_i hpos
    rw [parseI32_natChars (by omega)]
    congr 1
    omega

theorem intChars_not_ws_colon (z : Int) :
    ∀ ch ∈ intChars z, isWs ch = false ∧ ch ≠ ':' := by
  intro ch h
  unfold intChars at h
  split at h
  · rcases List.mem_cons.mp h with h | h
    · subst h; exact ⟨by decide, by decide⟩
    · obtain ⟨d, hd, hc⟩ := natChars_digits _ ch h
      obtain ⟨w1, w2, -⟩ := digitChar_facts d hd
      exact ⟨hc ▸ w1, hc ▸ w2⟩
  · obtain ⟨d, hd, hc⟩ := natChars_digits _ ch h
    obtain ⟨w1, w2, -⟩ := digitChar_facts d hd
    exact ⟨hc ▸ w1, hc ▸ w2⟩

theorem natChars_concat (n : Nat) :
    ∃ A d, d < 10 ∧ natChars n = A ++ [digitChar d] := by
  unfold natChars
  split
  · exact ⟨[], 0, by norm_num, rfl⟩
  · rename_i hn
    match fe : n, hn with
    | m+1, _ =>
      exact ⟨natCharsAux m ((m+1)/10), (m+1) % 10, Nat.mod_lt _ (by norm_num), by
        simp [natCharsAux]⟩

theorem intChars_concat (z : Int) :
    ∃ A d, d < 10 ∧ intChars z = A ++ [digitChar d] := by
  unfold intChars
  split
  · obtain ⟨A, d, hd, e⟩ := natChars_concat z.natAbs
    exact ⟨'-' :: A, d, hd, by rw [e]; rfl⟩
  · exact natChars_concat z.toNat

theorem intChars_head_not_ws (z : Int) :
    ∃ c cs, intChars z = c :: cs ∧ isWs c = false := by
  unfold intChars
  split
  · exact ⟨'-', natChars z.natAbs, rfl, by decide⟩
  · obtain ⟨c, cs, e, -, -, w⟩ := natChars_head_not_sign z.toNat
    exact ⟨c, cs, e, w⟩

/-! ## Trimming and splitting -/

theorem trimL_cons_not_ws {c : Char} {cs : List Char} (h : isWs c = false) :
    trimL (c :: cs) = c :: cs := by
  simp [trimL, List.dropWhile_cons, h]

theorem trimL_cons_ws {c : Char} {cs : List Char} (h : isWs c = true) :
    trimL (c :: cs) = trimL cs := by
  simp [trimL, List.dropWhile_cons, h]

theorem trimR_concat_not_ws {a : Char} {l : List Char} (h : isWs a = false) :
    trimR (l ++ [a]) = l ++ [a] := by
  simp [trimR, List.reverse_append, List.dropWhile_cons, h]

theorem trim_eq_self {l : List Char} (c a : Char) (cs A : List Char)
    (h1 : l = c :: cs) (h2 : l = A ++ [a])
    (hc : isWs c = false) (ha : isWs a = false) :
    trim l = l := by
  unfold trim
  rw [h1, trimL_cons_not_ws hc, ← h1, h2, trimR_concat_not_ws ha]

theorem trim_intChars (z : Int) : trim (intChars z) = intChars z := by
  obtain ⟨c, cs, e, hws⟩ := intChars_head_not_ws z
  obtain ⟨A, dd, hdd, e2⟩ := intChars_concat z
  exact trim_eq_self c (digitChar dd) cs A e e2 hws (digitChar_facts dd hdd).1

theorem trim_space_intChars (z : Int) : trim (' ' :: intChars z) = intChars z := by
  have h1 : trimL (' ' :: intChars z) = intChars z := by
    rw [trimL_cons_ws (by decide)]
    obtain ⟨c, cs, e, hws⟩ := intChars_head_not_ws z
    rw [e, trimL_cons_not_ws hws]
  unfold trim
  rw [h1]
  obtain ⟨A, dd, hdd, e2⟩ := intChars_concat z
  rw [e2, trimR_concat_not_ws (digitChar_facts dd hdd).1]

theorem trim_recordLine {key : List Char} {z : Int}
    (c0 : Char) (cs0 : List Char) (hk : key = c0 :: cs0) (hws : isWs c0 = false) :
    trim (key ++ ':' :: ' ' :: intChars z) = key ++ ':' :: ' ' :: intChars z := by
  obtain ⟨A, dd, hdd, e⟩ := intChars_concat z
  apply trim_eq_self c0 (digitChar dd) (cs0 ++ ':' :: ' ' :: intChars z)
    (key ++ ':' :: ' ' :: A)
  · rw [hk]; rfl
  · rw [e]; simp
  · exact hws
  · exact (digitChar_facts dd hdd).1

theorem splitOnce_append {sep : Char} {xs ys : List Char} (h : ∀ ch ∈ xs, ch ≠ sep) :
    splitOnce sep (xs ++ sep :: ys) = some (xs, ys) := by
  induction xs with
  | nil => simp [splitOnce]
  | cons c cs ih =>
    have hc : c ≠ sep := h c (List.mem_cons_self c cs)
    simp only [List.cons_append, splitOnce, if_neg hc, List.append_eq]
    rw [ih (fun ch hm => h ch (List.mem_cons_of_mem c hm))]
    rfl

theorem splitOnChar_cons (sep c : Char) (rest : List Char) :
    splitOnChar sep (c :: rest) =
      if c = sep then [] :: splitOnChar sep rest
      else match splitOnChar sep rest with
        | [] => [[c]]
        | h :: t => (c :: h) :: t := rfl

theorem splitOnChar_ne_nil (sep : Char) (cs : List Char) : splitOnChar sep cs ≠ [] := by
  cases cs with
  | nil => exact List.cons_ne_nil _ _
  | cons c rest =>
    rw [splitOnChar_cons]
    split
    · exact List.cons_ne_nil _ _
    · cases e : splitOnChar sep rest with
      | nil => exact List.cons_ne_nil _ _
      | cons h t => exact List.cons_ne_nil _ _

theorem splitOnChar_append_no_sep {sep : Char} {xs ys : List Char}
    (h : ∀ ch ∈ xs, ch ≠ sep) :
    splitOnChar sep (xs ++ ys) = (splitOnChar sep ys).modifyHead (fun l => xs ++ l) := by
  induction xs with
  | nil =>
    cases e : splitOnChar sep ys with
    | nil => exact absurd e (splitOnChar_ne_nil sep ys)
    | cons hh tt => simp [e]
  | cons c cs ih =>
    have hc : c ≠ sep := h c (List.mem_cons_self c cs)
    have ih' := ih (fun ch hm => h ch (List.mem_cons_of_mem c hm))
    rw [List.cons_append, splitOnChar_cons, if_neg hc, ih']
    cases e : splitOnChar sep ys with
    | nil => exact absurd e (splitOnChar_ne_nil sep ys)
    | cons hh tt => simp

theorem stripCR_recordLine {key : List Char} (z : Int) :
    stripCR (key ++ ':' :: ' ' :: intChars z) = key ++ ':' :: ' ' :: intChars z := by
  obtain ⟨A, dd, hdd, e⟩ := intChars_concat z
  have hne : digitChar dd ≠ '\r' := (digitChar_facts dd hdd).2.2.2.2.1
  unfold stripCR
  rw [e, show key ++ ':' :: ' ' :: (A ++ [digitChar dd]) =
    (key ++ ':' :: ' ' :: A) ++ [digitChar dd] by simp]
  rw [List.getLast?_concat, if_neg (by simp [hne])]

theorem recordLine_no_nl {key : List Char} {z : Int}
    (hk : ∀ ch ∈ key, ch ≠ '\n') :
    ∀ ch ∈ key ++ ':' :: ' ' :: intChars z, ch ≠ '\n' := by
  intro ch hm
  rcases List.mem_append.mp hm with hm | hm
  · exact hk ch hm
  · rcases List.mem_cons.mp hm with rfl | hm
    · decide
    · rcases List.mem_cons.mp hm with rfl | hm
      · decide
      · intro hcontra
        have hw := (intChars_not_ws_colon z ch hm).1
        subst hcontra
        exact absurd hw (by decide)

theorem rustLines_save (d c : Int) :
    rustLines (save_pids d c) =
      [daemonKey ++ ':' :: ' ' :: intChars d,
        childKey ++ ':' :: ' ' :: intChars c] := by
  have hd : ∀ ch ∈ daemonKey ++ ':' :: ' ' :: intChars d, ch ≠ '\n' :=
    recordLine_no_nl (by decide)
  have hc : ∀ ch ∈ childKey ++ ':' :: ' ' :: intChars c, ch ≠ '\n' :=
    recordLine_no_nl (by decide)
  have hsplit : splitOnChar '\n' (save_pids d c) =
      [daemonKey ++ ':' :: ' ' :: intChars d,
        childKey ++ ':' :: ' ' :: intChars c, []] := by
    unfold save_pids
    rw [splitOnChar_append_no_sep hd, splitOnChar_cons, if_pos rfl,
      splitOnChar_append_no_sep hc,
      show splitOnChar '\n' ['\n'] = [[], []] from by decide]
    simp
  unfold rustLines
  rw [hsplit]
  simp only [List.getLast?, List.dropLast, List.map]
  rw [stripCR_recordLine, stripCR_recordLine]

/-! ## The record parser and its characterization -/

theorem parseLines_eq_processEntries :
    ∀ ls d c, parseLines ls d c = processEntries (entriesOf ls) d c := by
  intro ls
  induction ls with
  | nil => intro d c; rfl
  | cons l rest ih =>
    intro d c
    simp only [parseLines, entriesOf, List.filterMap_cons, entryOf]
    by_cases he : trim l = []
    · simp only [if_pos he, ih, entriesOf]
    · simp only [if_neg he]
      cases e : splitOnce ':' (trim l) with
      | none => simp only [ih, entriesOf]
      | some kv =>
        obtain ⟨k, v⟩ := kv
        by_cases hk1 : trim k = daemonKey
        · simp only [if_pos hk1]
          cases ep : parseI32 (trim v) with
          | none => simp [processEntries, ep]
          | some n => simp [processEntries, ep, ih, entriesOf]
        · by_cases hk2 : trim k = childKey
          · simp only [if_neg hk1, if_pos hk2]
            cases ep : parseI32 (trim v) with
            | none => simp [processEntries, ep]
            | some n => simp [processEntries, ep, ih, entriesOf]
          · simp only [if_neg hk1, if_neg hk2, ih, entriesOf]

theorem entryOf_save_daemon (z : Int) :
    entryOf (daemonKey ++ ':' :: ' ' :: intChars z) = some (true, intChars z) := by
  simp only [entryOf]
  rw [@trim_recordLine daemonKey z 'd' (['a','e','m','o','n','_','p','i','d']) rfl (by decide)]
  rw [if_neg (show ¬(daemonKey ++ ':' :: ' ' :: intChars z = []) by simp [daemonKey])]
  rw [splitOnce_append (show ∀ ch ∈ daemonKey, ch ≠ ':' by decide)]
  show (if trim daemonKey = daemonKey then some (true, trim (' ' :: intChars z))
    else if trim daemonKey = childKey then some (false, trim (' ' :: intChars z))
    else none) = some (true, intChars z)
  rw [if_pos (show trim daemonKey = daemonKey by decide), trim_space_intChars]

theorem entryOf_save_child (z : Int) :
    entryOf (childKey ++ ':' :: ' ' :: intChars z) = some (false, intChars z) := by
  simp only [entryOf]
  rw [@trim_recordLine childKey z 'c' (['h','i','l','d','_','p','i','d']) rfl (by decide)]
  rw [if_neg (show ¬(childKey ++ ':' :: ' ' :: intChars z = []) by simp [childKey])]
  rw [splitOnce_append (show ∀ ch ∈ childKey, ch ≠ ':' by decide)]
  show (if trim childKey = daemonKey then some (true, trim (' ' :: intChars z))
    else if trim childKey = childKey then some (false, trim (' ' :: intChars z))
    else none) = some (false, intChars z)
  rw [if_neg (show ¬(trim childKey = daemonKey) by decide),
    if_pos (show trim childKey = childKey by decide), trim_space_intChars]

theorem processEntries_firstBad :
    ∀ es d c e, firstBad es = some e →
      processEntries es d c =
        Except.error (if e.1 then PidError.parseDaemonPid e.2
          else PidError.parseChildPid e.2) := by
  intro es
  induction es with
  | nil => intro d c e h; exact absurd h (by simp [firstBad])
  | cons a rest ih =>
    intro d c e h
    simp only [firstBad] at h
    by_cases hb : (parseI32 a.2).isNone
    · rw [if_pos hb] at h
      cases h
      cases ep : parseI32 a.2 with
      | some n => rw [ep] at hb; simp at hb
      | none => simp [processEntries, ep]
    · rw [if_neg hb] at h
      cases ep : parseI32 a.2 with
      | none => rw [ep] at hb; simp at hb
      | some n =>
        simp only [processEntries, ep]
        split
        · exact ih _ _ _ h
        · exact ih _ _ _ h

theorem firstBad_none_all_parse {es : List (Bool × List Char)}
    (h : firstBad es = none) : ∀ e ∈ es, (parseI32 e.2).isSome := by
  induction es with
  | nil => intro e he; simp at he
  | cons a rest ih =>
    intro e he
    simp only [firstBad] at h
    by_cases hb : (parseI32 a.2).isNone
    · rw [if_pos hb] at h; cases h
    · rw [if_neg hb] at h
      rcases List.mem_cons.mp he with rfl | he
      · cases ep : parseI32 e.2 with
        | none => rw [ep] at hb; simp at hb
        | some n => simp
      · exact ih h e he

theorem lastField_mem {b : Bool} {es : List (Bool × List Char)} {v : List Char}
    (h : lastField b es = some v) : (b, v) ∈ es := by
  induction es with
  | nil => simp [lastField] at h
  | cons a rest ih =>
    simp only [lastField] at h
    cases e : lastField b rest with
    | some w =>
      rw [e] at h
      simp only [Option.or] at h
      cases h
      exact List.mem_cons_of_mem a (ih e)
    | none =>
      rw [e] at h
      simp only [Option.or] at h
      by_cases hb : a.1 = b
      · rw [if_pos hb] at h
        injection h with hv
        have ha : a = (b, v) := by
          obtain ⟨a1, a2⟩ := a
          simp only at hb hv
          rw [hb, hv]
        rw [← ha]
        exact List.mem_cons_self _ _
      · rw [if_neg hb] at h
        simp at h

theorem processEntries_good :
    ∀ es d c, firstBad es = none →
      processEntries es d c =
        Except.ok ((lastPid true es).or d, (lastPid false es).or c) := by
  intro es
  induction es with
  | nil => intro d c h; simp [processEntries, lastPid, lastField]
  | cons a rest ih =>
    intro d c h
    have hgood : firstBad rest = none := by
      simp only [firstBad] at h
      split at h
      · cases h
      · exact h
    have hap : (parseI32 a.2).isSome := firstBad_none_all_parse h a (List.mem_cons_self a rest)
    cases ep : parseI32 a.2 with
    | none => rw [ep] at hap; simp at hap
    | some n =>
      have hlast : ∀ b : Bool, a.1 = b →
          (lastPid b (a :: rest)).or (some n) = (lastPid b rest).or (some n) ∧
          ((lastPid b (a :: rest)) = (lastPid b rest).or (some n)) := by
        intro b hb
        constructor
        · simp only [lastPid, lastField, if_pos hb]
          cases e : lastField b rest with
          | none => simp [Option.or, ep]
          | some w =>
            have hw : (parseI32 w).isSome :=
              firstBad_none_all_parse hgood (b, w) (lastField_mem e)
            cases ew : parseI32 w with
            | none => rw [ew] at hw; simp at hw
            | some m => simp [Option.or, ew]
        · simp only [lastPid, lastField, if_pos hb]
          cases e : lastField b rest with
          | none => simp [Option.or, ep]
          | some w =>
            have hw : (parseI32 w).isSome :=
              firstBad_none_all_parse hgood (b, w) (lastField_mem e)
            cases ew : parseI32 w with
            | none => rw [ew] at hw; simp at hw
            | some m => simp [Option.or, ew]
      have hlastOther : ∀ b : Bool, a.1 ≠ b →
          lastPid b (a :: rest) = lastPid b rest := by
        intro b hb
        simp only [lastPid, lastField, if_neg hb]
        cases e : lastField b rest <;> simp [Option.or]
      simp only [processEntries, ep]
      cases hb : a.1 with
      | true =>
        rw [if_pos rfl]
        rw [ih _ _ hgood]
        rw [(hlast true hb).2, hlastOther false (by simp [hb])]
        rw [Option.or_assoc]
        simp [Option.or]
      | false =>
        rw [if_neg (by simp)]
        rw [ih _ _ hgood]
        rw [(hlast false hb).2, hlastOther true (by simp [hb])]
        rw [Option.or_assoc]
        simp [Option.or]

theorem dropWhile_append_char (p : Char → Bool) (xs ys : List Char) :
    (xs ++ ys).dropWhile p =
      if xs.dropWhile p = [] then ys.dropWhile p else xs.dropWhile p ++ ys := by
  induction xs with
  | nil => simp
  | cons c cs ih =>
    simp only [List.cons_append, List.dropWhile_cons]
    by_cases hc : p c = true
    · simp only [if_pos hc, ih]
    · simp [hc]

theorem dropWhile_idem (p : Char → Bool) (l : List Char) :
    (l.dropWhile p).dropWhile p = l.dropWhile p := by
  induction l with
  | nil => rfl
  | cons c t ih =>
    rw [List.dropWhile_cons]
    split
    · exact ih
    · rw [List.dropWhile_cons, if_neg (by assumption)]

theorem trimL_idem (cs : List Char) : trimL (trimL cs) = trimL cs :=
  dropWhile_idem isWs cs

theorem trimR_idem (cs : List Char) : trimR (trimR cs) = trimR cs := by
  unfold trimR
  rw [List.reverse_reverse, dropWhile_idem]

theorem trim_trimL (cs : List Char) : trim (trimL cs) = trim cs := by
  unfold trim
  rw [trimL_idem]

theorem trimR_cons (c : Char) (t : List Char) :
    trimR (c :: t) =
      if trimR t = [] ∧ isWs c = true then [] else c :: trimR t := by
  have hrw : trimR (c :: t) = ((t.reverse ++ [c]).dropWhile isWs).reverse := by
    unfold trimR
    rw [List.reverse_cons]
  rw [hrw, dropWhile_append_char]
  by_cases he : List.dropWhile isWs t.reverse = []
  · have ht : trimR t = [] := by
      unfold trimR
      rw [he]
      rfl
    rw [if_pos he]
    by_cases hc : isWs c = true
    · rw [if_pos ⟨ht, hc⟩]
      simp [List.dropWhile_cons, hc]
    · rw [if_neg (fun hcon => hc hcon.2)]
      rw [ht]
      simp [List.dropWhile_cons, hc]
  · have ht : trimR t ≠ [] := by
      unfold trimR
      intro hcon
      exact he (by simpa using hcon)
    rw [if_neg he, if_neg (fun hcon => ht hcon.1)]
    simp [trimR]

theorem trimL_trimR_comm (l : List Char) : trimL (trimR l) = trimR (trimL l) := by
  induction l with
  | nil => rfl
  | cons c t ih =>
    rw [trimR_cons]
    by_cases hc : isWs c = true
    · rw [trimL_cons_ws hc]
      by_cases ht : trimR t = []
      · rw [if_pos ⟨ht, hc⟩]
        have hall : List.dropWhile isWs t.reverse = [] := by
          unfold trimR at ht
          simpa using ht
        have hallmem : ∀ x ∈ t, isWs x = true := by
          intro x hx
          have := (List.dropWhile_eq_nil_iff).mp hall x (List.mem_reverse.mpr hx)
          exact this
        have hL : trimL t = [] := by
          unfold trimL
          exact List.dropWhile_eq_nil_iff.mpr hallmem
        rw [hL]
        rfl
      · rw [if_neg (by intro hcon; exact ht hcon.1)]
        rw [trimL_cons_ws hc, ih]
    · have hc' : isWs c = false := by simpa using hc
      rw [if_neg (by intro hcon; exact hc hcon.2)]
      rw [trimL_cons_not_ws hc', trimL_cons_not_ws hc', trimR_cons,
        if_neg (by intro hcon; exact hc hcon.2)]

theorem trim_trimR (cs : List Char) : trim (trimR cs) = trim cs := by
  unfold trim
  rw [trimL_trimR_comm, trimR_idem]

theorem trimL_key_colon (k v : List Char) :
    trimL (k ++ ':' :: v) = trimL k ++ ':' :: v := by
  unfold trimL
  rw [dropWhile_append_char]
  split
  · rename_i h
    rw [h, List.dropWhile_cons, if_neg (by decide)]
    rfl
  · rfl

theorem trimR_colon_value (xs ys : List Char) :
    trimR (xs ++ ':' :: ys) = xs ++ ':' :: trimR ys := by
  unfold trimR
  have h1 : (xs ++ ':' :: ys).reverse = ys.reverse ++ ':' :: xs.reverse := by
    simp
  rw [h1, dropWhile_append_char]
  split
  · rename_i h
    rw [h, List.dropWhile_cons, if_neg (by decide)]
    simp
  · simp

theorem trim_key_colon_value (k v : List Char) :
    trim (k ++ ':' :: v) = trimL k ++ ':' :: trimR v := by
  unfold trim
  rw [trimL_key_colon, trimR_colon_value]

theorem entryOf_colon_line (k v : List Char) (hk : ∀ ch ∈ k, ch ≠ ':') :
    entryOf (k ++ ':' :: v) =
      (if trim k = daemonKey then some (true, trim v)
       else if trim k = childKey then some (false, trim v)
       else none) := by
  have hk' : ∀ ch ∈ trimL k, ch ≠ ':' := by
    intro ch hm
    exact hk ch ((List.dropWhile_sublist isWs).subset hm)
  simp only [entryOf]
  rw [trim_key_colon_value]
  rw [if_neg (by simp)]
  rw [splitOnce_append hk']
  show (if trim (trimL k) = daemonKey then some (true, trim (trimR v))
    else if trim (trimL k) = childKey then some (false, trim (trimR v))
    else none) = _
  rw [trim_trimL, trim_trimR]

theorem get_pids_some (cs : List Char) :
    get_pids (some cs) =
      match parseLines (rustLines cs) none none with
      | Except.error e => Except.error e
      | Except.ok (none, _) => Except.error PidError.daemonPidMissing
      | Except.ok (some _, none) => Except.error PidError.childPidMissing
      | Except.ok (some d, some c) => Except.ok (d, c) := rfl

theorem get_pids_entries_err {cs : List Char} {e : Bool × List Char}
    (h : firstBad (entriesOf (rustLines cs)) = some e) :
    get_pids (some cs) = Except.error
      (if e.1 then PidError.parseDaemonPid e.2 else PidError.parseChildPid e.2) := by
  rw [get_pids_some, parseLines_eq_processEntries, processEntries_firstBad _ _ _ _ h]

theorem get_pids_entries_good {cs : List Char}
    (h : firstBad (entriesOf (rustLines cs)) = none) :
    get_pids (some cs) =
      match lastPid true (entriesOf (rustLines cs)),
            lastPid false (entriesOf (rustLines cs)) with
      | some d, some c => Except.ok (d, c)
      | none, _ => Except.error PidError.daemonPidMissing
      | some _, none => Except.error PidError.childPidMissing := by
  rw [get_pids_some, parseLines_eq_processEntries, processEntries_good _ _ _ h]
  cases lastPid true (entriesOf (rustLines cs)) <;>
    cases lastPid false (entriesOf (rustLines cs)) <;> simp [Option.or]

/-! ## Claim theorems: the record store -/

/-- Claim C3: for every pair of i32 process identifiers, loading the record
immediately after saving that pair returns exactly the same pair; save
followed by load is the identity on the two pids. -/
theorem save_load_roundtrip (d c : Int)
    (hd1 : -2147483648 ≤ d) (hd2 : d ≤ 2147483647)
    (hc1 : -2147483648 ≤ c) (hc2 : c ≤ 2147483647) :
    get_pids (some (save_pids d c)) = Except.ok (d, c) := by
  rw [get_pids_some, rustLines_save, parseLines_eq_processEntries]
  have he : entriesOf [daemonKey ++ ':' :: ' ' :: intChars d,
      childKey ++ ':' :: ' ' :: intChars c] =
      [(true, intChars d), (false, intChars c)] := by
    simp [entriesOf, List.filterMap_cons, entryOf_save_daemon, entryOf_save_child]
  rw [he]
  simp only [processEntries, parseI32_intChars hd1 hd2, parseI32_intChars hc1 hc2]
  rfl

/-- Witness for save_load_roundtrip at the concrete pair (1234, -56). -/
theorem save_load_roundtrip_witness :
    get_pids (some (save_pids 1234 (-56))) = Except.ok (1234, -56) :=
  save_load_roundtrip 1234 (-56) (by decide) (by decide) (by decide) (by decide)

/-- Claim C4: loading a record ignores lines whose key is not recognized,
succeeds exactly when both a daemon_pid and a child_pid line are present with
integer-parseable values, returns an error naming the offending value when a
recognized key's value does not parse, and returns a missing-field error
(never a partial or defaulted record) when either field is absent. -/
theorem record_load_contract :
    (∀ ls1 l ls2 d0 c0, entryOf l = none →
      parseLines (ls1 ++ l :: ls2) d0 c0 = parseLines (ls1 ++ ls2) d0 c0) ∧
    (∀ l k v, splitOnce ':' (trim l) = some (k, v) →
      trim k ≠ daemonKey → trim k ≠ childKey → entryOf l = none) ∧
    (∀ cs e, firstBad (entriesOf (rustLines cs)) = some e →
      get_pids (some cs) = Except.error
        (if e.1 then PidError.parseDaemonPid e.2 else PidError.parseChildPid e.2)) ∧
    (∀ cs, firstBad (entriesOf (rustLines cs)) = none →
      get_pids (some cs) =
        match lastPid true (entriesOf (rustLines cs)),
              lastPid false (entriesOf (rustLines cs)) with
        | some d, some c => Except.ok (d, c)
        | none, _ => Except.error PidError.daemonPidMissing
        | some _, none => Except.error PidError.childPidMissing) := by
  refine ⟨?_, ?_, ?_, ?_⟩
  · intro ls1 l ls2 d0 c0 hnone
    rw [parseLines_eq_processEntries, parseLines_eq_processEntries]
    have he : entriesOf (ls1 ++ l :: ls2) = entriesOf (ls1 ++ ls2) := by
      simp [entriesOf, List.filterMap_append, List.filterMap_cons, hnone]
    rw [he]
  · intro l k v he hk1 hk2
    simp only [entryOf]
    by_cases hempty : trim l = []
    · rw [if_pos hempty]
    · rw [if_neg hempty, he]
      show (if trim k = daemonKey then some (true, trim v)
        else if trim k = childKey then some (false, trim v) else none) = none
      rw [if_neg hk1, if_neg hk2]
  · intro cs e h
    exact get_pids_entries_err h
  · intro cs h
    exact get_pids_entries_good h

/-- Witness for record_load_contract: a record whose daemon_pid value does
not parse yields the error naming that value, and an unknown-key line is
ignored by the line loop. -/
theorem record_load_contract_witness :
    get_pids (some (daemonKey ++ [':', ' ', 'x'])) =
      Except.error (PidError.parseDaemonPid ['x']) ∧
    parseLines [['q', ':', '1'], childKey ++ [':', '2']] none none =
      parseLines [childKey ++ [':', '2']] none none := by
  constructor
  · have h := record_load_contract.2.2.1 (daemonKey ++ [':', ' ', 'x'])
      (true, ['x']) (by decide)
    simpa using h
  · exact record_load_contract.1 [] (['q', ':', '1']) [childKey ++ [':', '2']]
      none none (by decide)

/-- Claim C9: in record parsing, a non-empty line without a colon separator
is silently skipped rather than reported; keys and values are
whitespace-trimmed before matching and parsing (only the trimmed key and the
trimmed value matter); and when loading succeeds, each returned pid is the
parsed value of the last line carrying its key. -/
theorem record_parse_details :
    (∀ l ls d0 c0, trim l ≠ [] → splitOnce ':' (trim l) = none →
      parseLines (l :: ls) d0 c0 = parseLines ls d0 c0) ∧
    (∀ k v, (∀ ch ∈ k, ch ≠ ':') →
      entryOf (k ++ ':' :: v) =
        (if trim k = daemonKey then some (true, trim v)
         else if trim k = childKey then some (false, trim v)
         else none)) ∧
    (∀ cs r, get_pids (some cs) = Except.ok r →
      lastPid true (entriesOf (rustLines cs)) = some r.1 ∧
      lastPid false (entriesOf (rustLines cs)) = some r.2) := by
  refine ⟨?_, ?_, ?_⟩
  · intro l ls d0 c0 hne hsp
    simp only [parseLines]
    rw [if_neg hne, hsp]
  · intro k v hk
    exact entryOf_colon_line k v hk
  · intro cs r h
    cases hb : firstBad (entriesOf (rustLines cs)) with
    | some e =>
      have herr := get_pids_entries_err hb
      rw [h] at herr
      exact Except.noConfusion herr
    | none =>
      have hg := get_pids_entries_good hb
      rw [h] at hg
      cases e1 : lastPid true (entriesOf (rustLines cs)) with
      | none =>
        rw [e1] at hg
        exact Except.noConfusion hg
      | some dval =>
        cases e2 : lastPid false (entriesOf (rustLines cs)) with
        | none =>
          rw [e1, e2] at hg
          exact Except.noConfusion hg
        | some cval =>
          rw [e1, e2] at hg
          injection hg with hp
          rw [hp]
          exact ⟨rfl, rfl⟩

/-- Witness for record_parse_details: a separator-free line is skipped, a
padded daemon_pid line is recognized via its trimmed key and value, and the
roundtripped record returns the (single) last values. -/
theorem record_parse_details_witness :
    parseLines [['a', 'b'], daemonKey ++ [':', '3']] none none =
      parseLines [daemonKey ++ [':', '3']] none none ∧
    entryOf (daemonKey ++ ':' :: [' ', '4']) = some (true, ['4']) ∧
    lastPid true (entriesOf (rustLines (save_pids 7 8))) = some 7 := by
  refine ⟨?_, ?_, ?_⟩
  · exact record_parse_details.1 ['a', 'b'] [daemonKey ++ [':', '3']]
      none none (by decide) (by decide)
  · have h := record_parse_details.2.1 daemonKey [' ', '4'] (by decide)
    rw [h]
    decide
  · have h := (record_parse_details.2.2 (save_pids 7 8) (7, 8) (by decide)).1
    simpa using h

/-! ## Claim theorems: stop, the termination handler, and the log sink -/

/-- Counterexample to claim C1 as stated: with everything dead, stop on an
absent record file returns an error instead of succeeding, and stop on a
stale record reports only the daemon — its trace contains no message about
the child, so it does not "report both processes as not running". -/
theorem stop_idempotence_counterexample :
    stop none (fun _ _ => false) 50 =
      (Except.error (StopError.record PidError.fileNotFound), []) ∧
    stop (some (save_pids 5 6)) (fun _ _ => false) 50 =
      (Except.ok (), [SEv.probe 5 false, SEv.print (Msg.daemonNotRunning 5)]) := by
  constructor
  · rfl
  · decide

/-- Claim C1 amended: when the record file exists and parses and the
recorded daemon pid is dead, stop returns without error after one probe and
one report naming the daemon only (no signal is sent and the child is not
mentioned); when the record file is absent, stop returns the record
not-found error instead. -/
theorem stop_idempotent_amended (record : Option (List Char))
    (alive : Nat → Int → Bool) (polls : Nat) (d c : Int)
    (h : get_pids record = Except.ok (d, c)) (hdead : alive 0 d = false) :
    stop record alive polls =
      (Except.ok (), [SEv.probe d false, SEv.print (Msg.daemonNotRunning d)]) ∧
    (∀ al p2, stop none al p2 =
      (Except.error (StopError.record PidError.fileNotFound), [])) := by
  constructor
  · simp [stop, h, hdead]
  · intro al p2
    rfl

/-- Witness for stop_idempotent_amended at a concrete dead-daemon record. -/
theorem stop_idempotent_amended_witness :
    stop (some (save_pids 5 6)) (fun _ _ => false) 50 =
      (Except.ok (), [SEv.probe 5 false, SEv.print (Msg.daemonNotRunning 5)]) :=
  (stop_idempotent_amended (some (save_pids 5 6)) (fun _ _ => false) 50 5 6
    (by decide) rfl).1

/-- Counterexample to claim C8 as stated: in stop, a SIGTERM to the daemon
that fails because the daemon exited between the liveness probe and the send
is reported as an error, not treated as success. -/
theorem signal_failure_counterexample :
    stop (some (save_pids 5 6)) (fun t p => p == 5 && t == 0) 50 =
      (Except.error (StopError.sigtermDaemonFailed 5),
        [SEv.probe 5 true, SEv.send Sig.term 5 false]) := by
  decide

theorem stopChildPhase_sigkill_fail {alive : Nat → Int → Bool} {c : Int}
    {t polls : Nat}
    (h1 : alive ((child_wait alive c polls t).1) c = true)
    (h2 : alive ((child_wait alive c polls t).1 + 1) c = false) :
    stopChildPhase alive c t polls =
      (Except.error (StopError.sigkillChildFailed c),
        (child_wait alive c polls t).2 ++
          [SEv.probe c true, SEv.print (Msg.childKillTimeout c),
            SEv.send Sig.kill c false]) := by
  simp [stopChildPhase, h1, h2]

/-- Claim C8 amended: only the termination handler treats a failed child
signal as a no-op — its event trace is the childless trace prefixed with the
send attempt, identical whether or not delivery succeeds, and it never
returns an error; in stop, each of the three sends (SIGTERM to the daemon,
the SIGKILL escalation to the daemon, and the final SIGKILL to the child on
either path into the child phase) is guarded by an immediately preceding
liveness probe, but a send that fails because the target exited between the
probe and the send is reported as an error. -/
theorem signal_failure_amended :
    (∀ (p : Int) (delivered logHandle : Bool),
      handlerRun (some p) delivered logHandle =
        HEv.sigtermChild p delivered :: handlerRun none delivered logHandle) ∧
    (∀ (delivered1 delivered2 logHandle : Bool),
      handlerRun none delivered1 logHandle = handlerRun none delivered2 logHandle) ∧
    (∀ record alive polls (d c : Int), get_pids record = Except.ok (d, c) →
      alive 0 d = true → alive 1 d = false →
      stop record alive polls =
        (Except.error (StopError.sigtermDaemonFailed d),
          [SEv.probe d true, SEv.send Sig.term d false])) ∧
    (∀ record alive polls (d c : Int), get_pids record = Except.ok (d, c) →
      alive 0 d = true → alive 1 d = true → alive 2 d = true → alive 3 d = false →
      stop record alive polls =
        (Except.error (StopError.sigkillDaemonFailed d),
          [SEv.probe d true, SEv.send Sig.term d true, SEv.sleepMs 1000,
            SEv.probe d true, SEv.print (Msg.daemonStillSigkill d),
            SEv.send Sig.kill d false])) ∧
    (∀ record alive polls (d c : Int), get_pids record = Except.ok (d, c) →
      alive 0 d = true → alive 1 d = true → alive 2 d = false →
      alive ((child_wait alive c polls 3).1) c = true →
      alive ((child_wait alive c polls 3).1 + 1) c = false →
      stop record alive polls =
        (Except.error (StopError.sigkillChildFailed c),
          SEv.probe d true :: SEv.send Sig.term d true :: SEv.sleepMs 1000 ::
            SEv.probe d false :: SEv.print (Msg.stoppedWaiting d c) ::
            ((child_wait alive c polls 3).2 ++
              [SEv.probe c true, SEv.print (Msg.childKillTimeout c),
                SEv.send Sig.kill c false]))) ∧
    (∀ record alive polls (d c : Int), get_pids record = Except.ok (d, c) →
      alive 0 d = true → alive 1 d = true → alive 2 d = true → alive 3 d = true →
      alive ((child_wait alive c polls 4).1) c = true →
      alive ((child_wait alive c polls 4).1 + 1) c = false →
      stop record alive polls =
        (Except.error (StopError.sigkillChildFailed c),
          SEv.probe d true :: SEv.send Sig.term d true :: SEv.sleepMs 1000 ::
            SEv.probe d true :: SEv.print (Msg.daemonStillSigkill d) ::
            SEv.send Sig.kill d true :: SEv.print (Msg.stoppedWaiting d c) ::
            ((child_wait alive c polls 4).2 ++
              [SEv.probe c true, SEv.print (Msg.childKillTimeout c),
                SEv.send Sig.kill c false]))) := by
  refine ⟨?_, ?_, ?_, ?_, ?_, ?_⟩
  · intro p del lo
    rfl
  · intro d1 d2 lo
    rfl
  · intro record alive polls d c h h0 h1
    simp [stop, h, h0, h1]
  · intro record alive polls d c h h0 h1 h2 h3
    simp [stop, stopAfterGrace, h, h0, h1, h2, h3]
  · intro record alive polls d c h h0 h1 h2 hc1 hc2
    simp [stop, stopAfterGrace, h, h0, h1, h2,
      stopChildPhase_sigkill_fail hc1 hc2]
  · intro record alive polls d c h h0 h1 h2 h3 hc1 hc2
    simp [stop, stopAfterGrace, h, h0, h1, h2, h3,
      stopChildPhase_sigkill_fail hc1 hc2]

/-- Witness for signal_failure_amended: against the record (9, 3), a daemon
gone at the SIGTERM send, a daemon gone at the SIGKILL escalation, and a
child gone at its final SIGKILL each make stop report the failed send. -/
theorem signal_failure_amended_witness :
    stop (some (save_pids 9 3)) (fun t p => p == 9 && t == 0) 50 =
      (Except.error (StopError.sigtermDaemonFailed 9),
        [SEv.probe 9 true, SEv.send Sig.term 9 false]) ∧
    stop (some (save_pids 9 3)) (fun t p => p == 9 && decide (t < 3)) 50 =
      (Except.error (StopError.sigkillDaemonFailed 9),
        [SEv.probe 9 true, SEv.send Sig.term 9 true, SEv.sleepMs 1000,
          SEv.probe 9 true, SEv.print (Msg.daemonStillSigkill 9),
          SEv.send Sig.kill 9 false]) ∧
    stop (some (save_pids 9 3))
        (fun t p => if p == 9 then decide (t < 2) else decide (t < 5)) 1 =
      (Except.error (StopError.sigkillChildFailed 3),
        [SEv.probe 9 true, SEv.send Sig.term 9 true, SEv.sleepMs 1000,
          SEv.probe 9 false, SEv.print (Msg.stoppedWaiting 9 3),
          SEv.probe 3 true, SEv.print (Msg.childStillRunning 3), SEv.sleepMs 100,
          SEv.probe 3 true, SEv.print (Msg.childKillTimeout 3),
          SEv.send Sig.kill 3 false]) := by
  refine ⟨?_, ?_, ?_⟩
  · exact signal_failure_amended.2.2.1 (some (save_pids 9 3))
      (fun t p => p == 9 && t == 0) 50 9 3 (by decide) (by decide) (by decide)
  · exact signal_failure_amended.2.2.2.1 (some (save_pids 9 3))
      (fun t p => p == 9 && decide (t < 3)) 50 9 3 (by decide) (by decide)
      (by decide) (by decide) (by decide)
  · have h := signal_failure_amended.2.2.2.2.1 (some (save_pids 9 3))
      (fun t p => if p == 9 then decide (t < 2) else decide (t < 5)) 1 9 3
      (by decide) (by decide) (by decide) (by decide) (by decide) (by decide)
    exact h

/-- Claim C7: the termination handler performs exactly, in this order: a
SIGTERM to the recorded child when one is present (nothing when absent),
clearing the running flag, printing the timestamped shutdown message,
syncing the open log file handle, and exiting the daemon process itself —
it does not wait for the supervisor loop. -/
theorem termination_handler_order :
    ∀ (p : Int) (delivered : Bool),
      handlerRun (some p) delivered true =
        [HEv.sigtermChild p delivered, HEv.setRunningFalse, HEv.printShutdown,
          HEv.syncLog, HEv.exitProcess] ∧
      handlerRun none delivered true =
        [HEv.setRunningFalse, HEv.printShutdown, HEv.syncLog, HEv.exitProcess] := by
  intro p del
  exact ⟨rfl, rfl⟩

/-- Claim C2 evaluated at its failing input: at an accounting checkpoint
under the default configuration (max_log_size_mib = 10) with a log file of
1000 bytes, the code rotates — `main` hands the raw MiB count to the drain
thread and the byte length is compared against 10 — while the claimed
condition, length exceeding max_log_size_mib * 2^20 bytes, is false. -/
theorem log_rotation_mib_bug :
    (logStep (cliMaxLogSize DEFAULT_MAX_LOG_SIZE_MIB) 31
      { bytesWritten := 1048576, fileLen := 1000 } 1).2 = true ∧
    specRotateCond DEFAULT_MAX_LOG_SIZE_MIB 1000 = false := by
  constructor
  · rfl
  · rfl

/-! ## Supervisor loop lemmas -/

theorem flag_false_mono {flag : Nat → Bool} (hm : Mono flag) {i j : Nat}
    (h : flag i = false) (hij : i ≤ j) : flag j = false := by
  induction hij with
  | refl => exact h
  | step hle ih =>
    rename_i m
    cases hf : flag (m + 1) with
    | false => rfl
    | true => exact absurd (hm m hf) (by simp [ih])

theorem supLoop_flag_false {flag : Nat → Bool} {interval : Nat} {dpid : Int}
    {pids : Nat → Int} {k t fuel : Nat} (h : flag t = false) :
    supLoop flag interval dpid pids k t fuel = if fuel = 0 then [] else [Ev.ret] := by
  cases fuel with
  | zero => rfl
  | succ m => simp [supLoop, h]

theorem delayPhase_false_next {flag : Nat → Bool} (hm : Mono flag) :
    ∀ n t j, j < n → flag (t + j) = false →
      flag ((delayPhase flag t n).1) = false := by
  intro n
  induction n with
  | zero => intro t j hj; omega
  | succ n ih =>
    intro t j hj hf
    simp only [delayPhase]
    cases hft : flag t with
    | false =>
      simp only [Bool.false_eq_true, if_false]
      exact flag_false_mono hm hft (by omega)
    | true =>
      simp only [if_true]
      have hj0 : j ≠ 0 := by
        intro h0
        rw [h0, Nat.add_zero] at hf
        rw [hft] at hf
        exact Bool.noConfusion hf
      apply ih (t + 1) (j - 1) (by omega)
      have harith : t + 1 + (j - 1) = t + j := by omega
      rw [harith]
      exact hf

theorem delayPhase_sleeps (flag : Nat → Bool) :
    ∀ n t, sleepCount (delayPhase flag t n).2 ≤ n ∧
      (∀ j < sleepCount (delayPhase flag t n).2, flag (t + j) = true) ∧
      (sleepCount (delayPhase flag t n).2 < n →
        flag (t + sleepCount (delayPhase flag t n).2) = false) ∧
      ((∀ j < n, flag (t + j) = true) →
        sleepCount (delayPhase flag t n).2 = n) := by
  intro n
  induction n with
  | zero =>
    intro t
    refine ⟨by simp [delayPhase, sleepCount], ?_, ?_, ?_⟩
    · intro j hj
      simp [delayPhase, sleepCount] at hj
    · intro hlt
      simp [delayPhase, sleepCount] at hlt
    · intro _
      simp [delayPhase, sleepCount]
  | succ n ih =>
    intro t
    simp only [delayPhase]
    cases hft : flag t with
    | false =>
      simp only [Bool.false_eq_true, if_false]
      have hcount : sleepCount ([] : List Ev) = 0 := rfl
      refine ⟨by simp [hcount], ?_, ?_, ?_⟩
      · intro j hj
        rw [hcount] at hj
        omega
      · intro _
        rw [hcount, Nat.add_zero]
        exact hft
      · intro hall
        exact absurd (hall 0 (by omega)) (by simp [hft])
    | true =>
      simp only [if_true]
      obtain ⟨ih1, ih2, ih3, ih4⟩ := ih (t + 1)
      have hcount : sleepCount (Ev.sleep1 :: (delayPhase flag (t + 1) n).2) =
          sleepCount (delayPhase flag (t + 1) n).2 + 1 := by
        simp [sleepCount, List.countP_cons]
      rw [hcount]
      refine ⟨by omega, ?_, ?_, ?_⟩
      · intro j hj
        cases j with
        | zero => simpa using hft
        | succ j' =>
          have := ih2 j' (by omega)
          have harith : t + 1 + j' = t + (j' + 1) := by omega
          rw [harith] at this
          exact this
      · intro hlt
        have := ih3 (by omega)
        have harith : t + 1 + sleepCount (delayPhase flag (t + 1) n).2 =
            t + (sleepCount (delayPhase flag (t + 1) n).2 + 1) := by omega
        rw [harith] at this
        exact this
      · intro hall
        have : sleepCount (delayPhase flag (t + 1) n).2 = n := by
          apply ih4
          intro j hj
          have harith : t + 1 + j = t + (j + 1) := by omega
          rw [harith]
          exact hall (j + 1) (by omega)
        omega

theorem applyEvs_frame (evs : List Ev) :
    ∀ fs : FS, (applyEvs fs evs).statusDirExists = fs.statusDirExists ∧
      (applyEvs fs evs).lockFileExists = fs.lockFileExists := by
  induction evs with
  | nil => intro fs; exact ⟨rfl, rfl⟩
  | cons e rest ih =>
    intro fs
    have hstep : (applyEv fs e).statusDirExists = fs.statusDirExists ∧
        (applyEv fs e).lockFileExists = fs.lockFileExists := by
      cases e <;> simp [applyEv]
    have hrest := ih (applyEv fs e)
    simp only [applyEvs, List.foldl_cons] at *
    exact ⟨hrest.1.trans hstep.1, hrest.2.trans hstep.2⟩

/-! ## Claim theorems: start, the supervisor loop, and main -/

/-- Claim C5: when start fails to acquire the instance lock — held by a live
competing instance, so the lock file already exists — it prints the failure
and returns at once: the trace holds only that report (no daemonize, no
spawn, no record save) and the filesystem state is returned unchanged. -/
theorem start_lock_failure_frame (flag : Nat → Bool) (interval : Nat)
    (dpid : Int) (pids : Nat → Int) (fuel : Nat) (fs : FS)
    (hlock : fs.lockFileExists = true) :
    start false flag interval dpid pids fuel fs = (fs, [Ev.printLockFailed]) := by
  obtain ⟨sd, lf, rec⟩ := fs
  have hlf : lf = true := hlock
  subst hlf
  rfl

/-- Witness for start_lock_failure_frame at a concrete state. -/
theorem start_lock_failure_frame_witness :
    start false (fun _ => true) 5 1 (fun _ => 2) 3
      { statusDirExists := true, lockFileExists := true, record := none } =
      ({ statusDirExists := true, lockFileExists := true, record := none },
        [Ev.printLockFailed]) :=
  start_lock_failure_frame (fun _ => true) 5 1 (fun _ => 2) 3 _ rfl

/-- Claim C6: with the monotone running flag, (1) if a loop check reads
false, the loop emits only the return event and no child is ever spawned
from that point; (2) if a check reads true, the very next event is a spawn;
(3) the restart delay sleeps at most interval one-second increments, each
sleep guarded by a true flag read just before it, and sleeps the full
interval when the flag stays true; (4) if any read during the delay window
is false, the flag is also false at the loop check the delay hands over to,
so by (1) no further child is spawned and the loop returns. -/
theorem restart_delay_behavior (flag : Nat → Bool) (interval : Nat)
    (dpid : Int) (pids : Nat → Int) (t k fuel : Nat) (hm : Mono flag) :
    (flag t = false →
      hasSpawnB (supLoop flag interval dpid pids k t fuel) = false ∧
      (1 ≤ fuel → supLoop flag interval dpid pids k t fuel = [Ev.ret])) ∧
    (flag t = true → 1 ≤ fuel →
      (supLoop flag interval dpid pids k t fuel).head? =
        some (Ev.spawn (pids k))) ∧
    (sleepCount (delayPhase flag t interval).2 ≤ interval ∧
      (∀ j < sleepCount (delayPhase flag t interval).2, flag (t + j) = true) ∧
      ((∀ j < interval, flag (t + j) = true) →
        sleepCount (delayPhase flag t interval).2 = interval)) ∧
    (∀ j < interval, flag (t + j) = false →
      flag ((delayPhase flag t interval).1) = false) := by
  refine ⟨?_, ?_, ?_, ?_⟩
  · intro hf
    rw [supLoop_flag_false hf]
    constructor
    · split
      · rfl
      · rfl
    · intro hfuel
      rw [if_neg (by omega)]
  · intro hf hfuel
    obtain ⟨m, rfl⟩ : ∃ m, fuel = m + 1 := ⟨fuel - 1, by omega⟩
    simp [supLoop, hf]
  · obtain ⟨h1, h2, h3, h4⟩ := delayPhase_sleeps flag interval t
    exact ⟨h1, h2, h4⟩
  · intro j hj hf
    exact delayPhase_false_next hm interval t j hj hf

/-- Witness for restart_delay_behavior: a flag that goes false at read 2
yields no spawn from the loop check at read 5. -/
theorem restart_delay_behavior_witness :
    hasSpawnB (supLoop (fun i => decide (i < 2)) 3 1 (fun _ => 7) 0 5 4) = false :=
  ((restart_delay_behavior (fun i => decide (i < 2)) 3 1 (fun _ => 7) 5 0 4
    (by intro i h; simp only [decide_eq_true_eq] at h ⊢; omega)).1 (by decide)).1

/-- Claim C10: every invocation — start, stop and status alike — creates the
status directory before dispatching; stop and status on an absent record
file leave behind a state differing only in the created directory, and fail
(stop with the propagated not-found error, status with its expect panic). -/
theorem status_dir_created (cmd : Cmd) (env : Env) (fs : FS) :
    (mainModel cmd env fs).1.statusDirExists = true ∧
    (fs.record = none → cmd = Cmd.cmdStop →
      mainModel cmd env fs =
        ({ fs with statusDirExists := true },
          MainOutcome.stopErr (StopError.record PidError.fileNotFound))) ∧
    (fs.record = none → cmd = Cmd.cmdStatus →
      mainModel cmd env fs =
        ({ fs with statusDirExists := true },
          MainOutcome.statusPanic PidError.fileNotFound)) := by
  refine ⟨?_, ?_, ?_⟩
  · cases cmd with
    | cmdStart =>
      show (start env.lockAvailable env.flag env.interval env.dpid env.pids env.fuel
        { fs with statusDirExists := true }).1.statusDirExists = true
      unfold start try_lock
      dsimp only
      split
      · rw [(applyEvs_frame _ _).1]
      · rfl
    | cmdStop =>
      simp only [mainModel]
      split
      · rfl
      · rfl
    | cmdStatus =>
      simp only [mainModel]
      split
      · rfl
      · rfl
  · intro hrec hcmd
    subst hcmd
    simp only [mainModel, hrec]
    rfl
  · intro hrec hcmd
    subst hcmd
    simp only [mainModel, hrec]
    rfl

/-- Witness for status_dir_created: stop in a directory with no record file
creates the status directory and fails with the not-found error. -/
theorem status_dir_created_witness :
    mainModel Cmd.cmdStop
      { lockAvailable := true, flag := fun _ => true, interval := 5, dpid := 1,
        pids := fun _ => 2, fuel := 3, alive := fun _ _ => false, polls := 3 }
      { statusDirExists := false, lockFileExists := false, record := none } =
      ({ statusDirExists := true, lockFileExists := false, record := none },
        MainOutcome.stopErr (StopError.record PidError.fileNotFound)) := by
  have h := (status_dir_created Cmd.cmdStop
    { lockAvailable := true, flag := fun _ => true, interval := 5, dpid := 1,
      pids := fun _ => 2, fuel := 3, alive := fun _ _ => false, polls := 3 }
    { statusDirExists := false, lockFileExists := false, record := none }).2.1 rfl rfl
  exact h

end Guarderd
